import Mathlib

/-!
Verification of the ICD-10 code lookup service (`lib/icd10-lookup.ts`).

The module is an in-memory search engine over a static catalog of
`{code, desc}` records.  All query operations are pure functions of the
loaded catalog, so they are embedded as Lean functions over a
`List ICD10Entry`; the lazily-initialized singleton state
(`icd10Database`) is embedded as an explicit `Option` state threaded
through the load-triggering operations.

Modelling conventions:
* JavaScript strings are Lean `String`s; per-character transforms
  (`toUpperCase`, `toLowerCase`) are mapped over the character list
  using `Char.toUpper` / `Char.toLower` (the catalog's code and
  description data is ASCII, where these agree with JS).
* JS `Map` objects are embedded as insertion-ordered association lists:
  `Map.set` on a fresh key appends, on an existing key updates in place,
  exactly as JS preserves insertion order for iteration.
* JS `Array.prototype.sort` (stable since ES2019) with comparator
  `(a, b) => b[1] - a[1]` is embedded as the stable `List.mergeSort`
  with the corresponding boolean order.
-/

namespace ICD10

/-! ### Character-level facts about `Char.toUpper` / `Char.toLower` -/

theorem toNat_ofNat_valid (m : Nat) (h : m < 0xd800) : (Char.ofNat m).toNat = m := by
  rw [Char.ofNat, dif_pos (Or.inl h)]
  rfl

theorem toUpper_eq_ite (c : Char) :
    c.toUpper = if c.toNat ≥ 97 ∧ c.toNat ≤ 122 then Char.ofNat (c.toNat - 32) else c := rfl

theorem toLower_eq_ite (c : Char) :
    c.toLower = if c.toNat ≥ 65 ∧ c.toNat ≤ 90 then Char.ofNat (c.toNat + 32) else c := rfl

theorem toNat_toUpper (c : Char) :
    c.toUpper.toNat = if 97 ≤ c.toNat ∧ c.toNat ≤ 122 then c.toNat - 32 else c.toNat := by
  rw [toUpper_eq_ite]
  split
  · next h => exact toNat_ofNat_valid _ (by omega)
  · rfl

theorem toNat_toLower (c : Char) :
    c.toLower.toNat = if 65 ≤ c.toNat ∧ c.toNat ≤ 90 then c.toNat + 32 else c.toNat := by
  rw [toLower_eq_ite]
  split
  · next h => exact toNat_ofNat_valid _ (by omega)
  · rfl

theorem char_eq_of_toNat_eq {c d : Char} (h : c.toNat = d.toNat) : c = d :=
  Char.ext (UInt32.toNat.inj h)

theorem toUpper_toUpper (c : Char) : c.toUpper.toUpper = c.toUpper := by
  apply char_eq_of_toNat_eq
  have h1 := toNat_toUpper c
  have h2 := toNat_toUpper c.toUpper
  by_cases hc : 97 ≤ c.toNat ∧ c.toNat ≤ 122
  · rw [if_pos hc] at h1
    rw [h1] at h2
    rw [if_neg (by omega)] at h2
    omega
  · rw [if_neg hc] at h1
    rw [h1, if_neg hc] at h2
    omega

theorem toLower_toUpper (c : Char) : c.toUpper.toLower = c.toLower := by
  apply char_eq_of_toNat_eq
  have h1 := toNat_toUpper c
  have h2 := toNat_toLower c.toUpper
  have h3 := toNat_toLower c
  by_cases hc : 97 ≤ c.toNat ∧ c.toNat ≤ 122
  · rw [if_pos hc] at h1
    rw [h1, if_pos (by omega)] at h2
    rw [if_neg (by omega)] at h3
    omega
  · rw [if_neg hc] at h1
    rw [h1] at h2
    omega

/-! ### Data model (`ICD10Entry`, `SearchResult`) -/

/-- Embeds `interface ICD10Entry` (icd10-lookup.ts lines 16-21). -/
structure ICD10Entry where
  code : String
  desc : String
  normalizedCode : String
  keywords : List String
deriving DecidableEq, Repr

/-- Embeds the `matchType` string union of `interface SearchResult` (line 27). -/
inductive MatchType where
  | exact_code
  | partial_code
  | keyword
  | fuzzy
deriving DecidableEq, Repr

/-- Embeds `interface SearchResult` (lines 23-28). -/
structure SearchResult where
  code : String
  description : String
  score : Nat
  matchType : MatchType
deriving DecidableEq, Repr

/-- Embeds the raw `{ code: string; desc: string }` records parsed from
`icd10_codes.json` (line 84). -/
structure RawEntry where
  code : String
  desc : String
deriving DecidableEq, Repr

/-! ### Normalization (`normalizeCode`, lines 62-64) -/

/-- Character class of the regex `[.\s-]` in `normalizeCode`, by code point:
`0x2E` = dot, `0x2D` = hyphen, and the JS `\s` whitespace class
(tab `0x09`, LF `0x0A`, VT `0x0B`, FF `0x0C`, CR `0x0D`, space `0x20`,
NBSP `0xA0`, Ogham space `0x1680`, the `0x2000`-`0x200A` range,
line/paragraph separators `0x2028`/`0x2029`, `0x202F`, `0x205F`,
ideographic space `0x3000`, and BOM `0xFEFF`). -/
def isStrippedChar (c : Char) : Bool :=
  c.toNat = 0x2E || c.toNat = 0x2D ||
  (0x09 ≤ c.toNat && c.toNat ≤ 0x0D) || c.toNat = 0x20 ||
  c.toNat = 0xA0 || c.toNat = 0x1680 ||
  (0x2000 ≤ c.toNat && c.toNat ≤ 0x200A) ||
  c.toNat = 0x2028 || c.toNat = 0x2029 || c.toNat = 0x202F ||
  c.toNat = 0x205F || c.toNat = 0x3000 || c.toNat = 0xFEFF

/-- Embeds `normalizeCode` (lines 62-64):
`code.toUpperCase().replace(/[.\s-]/g, '')`. -/
def normalizeCode (code : String) : String :=
  String.mk ((code.data.map Char.toUpper).filter (fun c => !isStrippedChar c))

theorem isStrippedChar_iff (c : Char) : isStrippedChar c = true ↔
    (c.toNat = 0x2E ∨ c.toNat = 0x2D ∨
     (0x09 ≤ c.toNat ∧ c.toNat ≤ 0x0D) ∨ c.toNat = 0x20 ∨
     c.toNat = 0xA0 ∨ c.toNat = 0x1680 ∨
     (0x2000 ≤ c.toNat ∧ c.toNat ≤ 0x200A) ∨
     c.toNat = 0x2028 ∨ c.toNat = 0x2029 ∨ c.toNat = 0x202F ∨
     c.toNat = 0x205F ∨ c.toNat = 0x3000 ∨ c.toNat = 0xFEFF) := by
  simp only [isStrippedChar, Bool.or_eq_true, decide_eq_true_eq, Bool.and_eq_true]
  tauto

theorem isStrippedChar_toUpper (c : Char) : isStrippedChar c.toUpper = isStrippedChar c := by
  have h1 := toNat_toUpper c
  rw [Bool.eq_iff_iff, isStrippedChar_iff, isStrippedChar_iff]
  by_cases hc : 97 ≤ c.toNat ∧ c.toNat ≤ 122
  · rw [if_pos hc] at h1
    rw [h1]
    omega
  · rw [if_neg hc] at h1
    rw [h1]

/-- Characters kept by one `normalizeCode` pass are fixed points of a second
pass, so normalization is idempotent at the character-list level. -/
theorem normChars_idem (l : List Char) :
    ((((l.map Char.toUpper).filter (fun c => !isStrippedChar c)).map Char.toUpper).filter
        (fun c => !isStrippedChar c)) =
      (l.map Char.toUpper).filter (fun c => !isStrippedChar c) := by
  induction l with
  | nil => rfl
  | cons c t ih =>
    by_cases h : isStrippedChar c.toUpper
    · simpa [List.filter_cons, h] using ih
    · simp only [Bool.not_eq_true] at h
      simp [List.filter_cons, h, toUpper_toUpper, ih]

/-! ### Tokenization (`extractKeywords`, lines 42-49, and `STOP_WORDS`, lines 52-57) -/

/-- Code points of the JS regex `\w` class: `[A-Za-z0-9_]`. -/
def isWordChar (c : Char) : Bool :=
  (0x30 ≤ c.toNat && c.toNat ≤ 0x39) ||
  (0x41 ≤ c.toNat && c.toNat ≤ 0x5A) ||
  (0x61 ≤ c.toNat && c.toNat ≤ 0x7A) ||
  c.toNat = 0x5F

/-- Code points of the JS regex `\s` class (same whitespace set listed in
`isStrippedChar`, without dot and hyphen). -/
def isJsSpace (c : Char) : Bool :=
  (0x09 ≤ c.toNat && c.toNat ≤ 0x0D) || c.toNat = 0x20 ||
  c.toNat = 0xA0 || c.toNat = 0x1680 ||
  (0x2000 ≤ c.toNat && c.toNat ≤ 0x200A) ||
  c.toNat = 0x2028 || c.toNat = 0x2029 || c.toNat = 0x202F ||
  c.toNat = 0x205F || c.toNat = 0x3000 || c.toNat = 0xFEFF

/-- Embeds `.replace(/[^\w\s]/g, ' ')` (line 45), one character at a time. -/
def cleanChar (c : Char) : Char :=
  if !isWordChar c && !isJsSpace c then ' ' else c

/-- Splits a character list into its maximal runs of non-whitespace
characters, accumulating the current run in reverse.  JS
`split(/\s+/)` can additionally yield one empty leading fragment (when
the text starts with whitespace, or is empty) and one empty trailing
fragment; both are dropped by the `length >= 3` filter that immediately
follows in `extractKeywords`, so they are omitted here. -/
def splitWsAux : List Char → List Char → List (List Char)
  | [], acc => if acc.isEmpty then [] else [acc.reverse]
  | c :: t, acc =>
    if isJsSpace c then
      if acc.isEmpty then splitWsAux t [] else acc.reverse :: splitWsAux t []
    else splitWsAux t (c :: acc)

/-- Embeds `.split(/\s+/)` (line 46) on the already-cleaned text. -/
def splitWs (l : List Char) : List (List Char) :=
  splitWsAux l []

/-- Embeds the `STOP_WORDS` set (lines 52-57), in source order. -/
def STOP_WORDS : List String :=
  ["the", "and", "for", "with", "without", "other", "due", "not", "unspecified",
   "specified", "type", "from", "that", "this", "has", "have", "are", "was",
   "were", "been", "being", "having", "had", "does", "did", "but", "can",
   "could", "may", "might", "must", "shall", "should", "will", "would"]

/-- Embeds `extractKeywords` (lines 42-49): lowercase, replace every
non-word non-space character by a space, split on whitespace runs, drop
tokens shorter than 3 characters, drop stop words. -/
def extractKeywords (text : String) : List String :=
  (((splitWs ((text.data.map Char.toLower).map cleanChar)).map String.mk).filter
      (fun w => 3 ≤ w.length)).filter (fun w => !STOP_WORDS.contains w)

/-! ### Database construction (`loadDatabase` body, lines 87-109) -/

/-- Embeds the entry construction of `loadDatabase` (lines 87-92): each raw
record is enriched with its normalized code and description keywords. -/
def buildDatabase (entries : List RawEntry) : List ICD10Entry :=
  entries.map (fun e =>
    { code := e.code
      desc := e.desc
      normalizedCode := normalizeCode e.code
      keywords := extractKeywords e.desc })

/-- Embeds lookup in `codeIndex` (lines 95-98).  The index is built by
`forEach` + `Map.set`, and `Map.set` overwrites, so the map sends each
normalized code to the position of the LAST entry carrying it; the
recursion therefore prefers a hit in the tail. `i` is the position of
the head of `db` in the full database. -/
def codeIndexLookupAux (db : List ICD10Entry) (nc : String) (i : Nat) : Option Nat :=
  match db with
  | [] => none
  | e :: rest =>
    match codeIndexLookupAux rest nc (i + 1) with
    | some j => some j
    | none => if e.normalizedCode = nc then some i else none

/-- Lookup of a normalized code in `codeIndex` (built at lines 95-98). -/
def codeIndexLookup (db : List ICD10Entry) (nc : String) : Option Nat :=
  codeIndexLookupAux db nc 0

/-- Embeds `lookupCode` (lines 137-148): normalize the input, consult the
code index, and fetch the entry; `null` (here `none`) when absent. -/
def lookupCode (db : List ICD10Entry) (code : String) : Option ICD10Entry :=
  match codeIndexLookup db (normalizeCode code) with
  | some idx => db.get? idx
  | none => none

/-! ### Exact-lookup lemmas -/

theorem codeIndexLookupAux_eq_none {nc : String} :
    ∀ (db : List ICD10Entry) (i : Nat), (∀ e ∈ db, e.normalizedCode ≠ nc) →
      codeIndexLookupAux db nc i = none
  | [], _, _ => rfl
  | e :: rest, i, h => by
    have hr := codeIndexLookupAux_eq_none rest (i + 1)
      (fun x hx => h x (List.mem_cons_of_mem _ hx))
    simp only [codeIndexLookupAux, hr]
    rw [if_neg (h e (List.mem_cons_self _ _))]

theorem codeIndexLookupAux_eq_some {nc : String} :
    ∀ (db : List ICD10Entry) (i k : Nat) (e : ICD10Entry),
      (db.map ICD10Entry.normalizedCode).Nodup →
      db.get? k = some e → e.normalizedCode = nc →
      codeIndexLookupAux db nc i = some (i + k)
  | [], _, k, e, _, hk, _ => by simp at hk
  | f :: rest, i, 0, e, hnd, hk, he => by
    simp only [List.get?_cons_zero, Option.some.injEq] at hk
    subst hk
    simp only [List.map_cons, List.nodup_cons] at hnd
    have hnone : codeIndexLookupAux rest nc (i + 1) = none := by
      apply codeIndexLookupAux_eq_none
      intro x hx hcontra
      exact hnd.1 (he ▸ hcontra ▸ List.mem_map_of_mem ICD10Entry.normalizedCode hx)
    simp only [codeIndexLookupAux, hnone]
    rw [if_pos he]
    exact congrArg some (by omega)
  | f :: rest, i, k + 1, e, hnd, hk, he => by
    simp only [List.get?_cons_succ] at hk
    simp only [List.map_cons, List.nodup_cons] at hnd
    have hr := codeIndexLookupAux_eq_some rest (i + 1) k e hnd.2 hk he
    simp only [codeIndexLookupAux, hr]
    exact congrArg some (by omega)

/-- C1: for every entry loaded from the source catalog (under the
precondition that normalized codes are unique across the catalog),
`lookupCode` applied to that entry's original code string returns that
exact entry; for any input string whose normalized form matches no
entry's `normalizedCode`, `lookupCode` returns `none` ("not found") and,
being a total Lean function, never throws. -/
theorem lookupCode_catalog (raws : List RawEntry)
    (huniq : ((buildDatabase raws).map ICD10Entry.normalizedCode).Nodup) :
    (∀ e ∈ buildDatabase raws, lookupCode (buildDatabase raws) e.code = some e) ∧
    (∀ s : String,
      normalizeCode s ∉ (buildDatabase raws).map ICD10Entry.normalizedCode →
      lookupCode (buildDatabase raws) s = none) := by
  constructor
  · intro e he
    obtain ⟨k, hk⟩ := List.get?_of_mem he
    have hnorm : e.normalizedCode = normalizeCode e.code := by
      obtain ⟨r, _, rfl⟩ := List.mem_map.mp he
      rfl
    have := codeIndexLookupAux_eq_some (buildDatabase raws) 0 k e huniq hk hnorm
    simp only [lookupCode, codeIndexLookup, this, Nat.zero_add]
    exact hk
  · intro s hs
    have hnone : codeIndexLookupAux (buildDatabase raws) (normalizeCode s) 0 = none := by
      apply codeIndexLookupAux_eq_none
      intro x hx hcontra
      exact hs (hcontra ▸ List.mem_map_of_mem ICD10Entry.normalizedCode hx)
    simp [lookupCode, codeIndexLookup, hnone]

/-- Two-entry demonstration catalog taken from the spec's end-to-end
scenario, used to instantiate hypotheses of the theorems above. -/
def demoRaws : List RawEntry :=
  [{ code := "J18.9", desc := "Pneumonia, unspecified organism" },
   { code := "J44.0",
     desc := "Chronic obstructive pulmonary disease with acute lower respiratory infection" }]

/-- The first entry of `buildDatabase demoRaws`, spelled out. -/
def demoEntryJ189 : ICD10Entry :=
  { code := "J18.9", desc := "Pneumonia, unspecified organism",
    normalizedCode := "J189", keywords := ["pneumonia", "organism"] }

theorem lookupCode_catalog_witness :
    ((buildDatabase demoRaws).map ICD10Entry.normalizedCode).Nodup ∧
    demoEntryJ189 ∈ buildDatabase demoRaws ∧
    lookupCode (buildDatabase demoRaws) demoEntryJ189.code = some demoEntryJ189 ∧
    normalizeCode "ZZ9.9" ∉ (buildDatabase demoRaws).map ICD10Entry.normalizedCode ∧
    lookupCode (buildDatabase demoRaws) "ZZ9.9" = none :=
  ⟨by decide, by decide,
   (lookupCode_catalog demoRaws (by decide)).1 demoEntryJ189 (by decide),
   by decide,
   (lookupCode_catalog demoRaws (by decide)).2 "ZZ9.9" (by decide)⟩

/-- C7: code normalization is idempotent — `normalize(normalize(c)) =
normalize(c)` for every string — and case- and punctuation-insensitive:
`normalize("J18.9")`, `normalize("j 18-9")` and `"J189"` all coincide. -/
theorem normalizeCode_idem_insensitive :
    (∀ c : String, normalizeCode (normalizeCode c) = normalizeCode c) ∧
    normalizeCode "J18.9" = normalizeCode "j 18-9" ∧
    normalizeCode "j 18-9" = "J189" := by
  refine ⟨?_, by decide, by decide⟩
  intro c
  exact congrArg String.mk (normChars_idem c.data)

/-- Uppercases every character of a string; used to express invariance of the
tokenizer under changes of input case. -/
def jsUpperStr (s : String) : String :=
  String.mk (s.data.map Char.toUpper)

/-- C8: the tokenizer is a deterministic pure function (a Lean function by
construction) that drops every token shorter than 3 characters and every
stop word, is invariant to input case, excludes "unspecified" from
`tokenize("Pneumonia, unspecified organism")`, and is the same function
used for indexing descriptions (in `buildDatabase`) and for queries. -/
theorem extractKeywords_tokenizer :
    (∀ s t : String, t ∈ extractKeywords s → 3 ≤ t.length ∧ STOP_WORDS.contains t = false) ∧
    (∀ s : String, extractKeywords (jsUpperStr s) = extractKeywords s) ∧
    extractKeywords "Pneumonia, unspecified organism" = ["pneumonia", "organism"] ∧
    (∀ raws : List RawEntry,
      (buildDatabase raws).map ICD10Entry.keywords =
        raws.map (fun r => extractKeywords r.desc)) := by
  refine ⟨?_, ?_, by decide, ?_⟩
  · intro s t ht
    simp only [extractKeywords, List.mem_filter, Bool.not_eq_true', decide_eq_true_eq] at ht
    exact ⟨ht.1.2, ht.2⟩
  · intro s
    simp only [extractKeywords, jsUpperStr]
    have : ((String.mk (s.data.map Char.toUpper)).data.map Char.toLower) =
        s.data.map Char.toLower := by
      show ((s.data.map Char.toUpper).map Char.toLower) = s.data.map Char.toLower
      rw [List.map_map]
      exact List.map_congr_left (fun c _ => toLower_toUpper c)
    rw [this]
  · intro raws
    simp only [buildDatabase, List.map_map]
    rfl

theorem extractKeywords_tokenizer_witness :
    "pneumonia" ∈ extractKeywords "Pneumonia, unspecified organism" ∧
    3 ≤ ("pneumonia" : String).length ∧
    STOP_WORDS.contains "pneumonia" = false :=
  ⟨by decide,
   (extractKeywords_tokenizer.1 "Pneumonia, unspecified organism" "pneumonia" (by decide)).1,
   (extractKeywords_tokenizer.1 "Pneumonia, unspecified organism" "pneumonia" (by decide)).2⟩

/-! ### Keyword search (`searchByDescription`, lines 170-216) -/

/-- Embeds `s.startsWith(p)` on JS strings via the character lists. -/
def jsStartsWith (s p : String) : Bool :=
  p.data.isPrefixOf s.data

/-- Embeds `s.slice(0, n)` for a non-negative count. -/
def jsSlice (s : String) (n : Nat) : String :=
  String.mk (s.data.take n)

/-- Embeds the posting list `keywordIndex.get(k)` (index built at lines
101-109): the entry positions are pushed in entry order while iterating
each entry's keyword list, so position `i` occurs once per occurrence of
`k` among the keywords of entry `i`.  A keyword absent from the index
yields `[]`, matching `keywordIndex.get(keyword) || []` (line 186). -/
def postings (db : List ICD10Entry) (k : String) : List Nat :=
  db.enum.flatMap (fun p => (p.2.keywords.filter (fun kw => kw == k)).map (fun _ => p.1))

/-- Key-set helper for `keywordIndex`: `Map.set` appends a fresh key,
so iteration order of `keywordIndex.entries()` (line 192) is first-occurrence
order of the keywords. -/
def insertKey (ks : List String) (k : String) : List String :=
  if k ∈ ks then ks else ks ++ [k]

/-- Embeds the key iteration order of `keywordIndex.entries()`. -/
def keywordIndexKeys (db : List ICD10Entry) : List String :=
  (db.flatMap (fun e => e.keywords)).foldl insertKey []

/-- Embeds the `scores: Map<number, number>` of `searchByDescription`
(line 182) as an insertion-ordered association list. -/
abbrev ScoreMap := List (Nat × Nat)

def msLookup : ScoreMap → Nat → Option Nat
  | [], _ => none
  | (k, v) :: rest, i => if k = i then some v else msLookup rest i

/-- Embeds `scores.set(idx, (scores.get(idx) || 0) + pts)` (lines 188, 195):
an existing key is updated in place, a fresh key is appended. -/
def msAdd : ScoreMap → Nat → Nat → ScoreMap
  | [], i, pts => [(i, pts)]
  | (k, v) :: rest, i, pts =>
    if k = i then (k, v + pts) :: rest else (k, v) :: msAdd rest i pts

/-- The score stored for `i`, defaulting to 0 (`scores.get(idx) || 0`). -/
def msVal (m : ScoreMap) (i : Nat) : Nat :=
  (msLookup m i).getD 0

/-- Adds `pts` to every position of a posting list in order, as the
`for (const idx of ...)` loops at lines 187-189 and 194-196 do. -/
def addMany (m : ScoreMap) (idxs : List Nat) (pts : Nat) : ScoreMap :=
  idxs.foldl (fun m i => msAdd m i pts) m

/-- Embeds the test `indexedKeyword.startsWith(keyword) && indexedKeyword !==
keyword` (line 193). -/
def prefixCond (tok k : String) : Bool :=
  jsStartsWith k tok && k != tok

/-- Embeds the body of the query-token loop (lines 184-199): +3 per
occurrence in the exact posting list, then +1 per occurrence in the
posting list of every other indexed keyword that the token is a proper
prefix of, scanning keys in index-insertion order. -/
def scoreToken (db : List ICD10Entry) (m : ScoreMap) (tok : String) : ScoreMap :=
  (keywordIndexKeys db).foldl
    (fun m k => if prefixCond tok k then addMany m (postings db k) 1 else m)
    (addMany m (postings db tok) 3)

/-- Embeds the whole scoring phase of `searchByDescription` (lines 182-199). -/
def computeScores (db : List ICD10Entry) (toks : List String) : ScoreMap :=
  toks.foldl (scoreToken db) []

/-- Order used by `.sort((a, b) => b[1] - a[1])` (line 203): descending by
score, ties considered equal. -/
def scoreGeRel (a b : Nat × Nat) : Prop :=
  b.2 ≤ a.2

instance : DecidableRel scoreGeRel :=
  fun a b => inferInstanceAs (Decidable (b.2 ≤ a.2))

instance : IsTotal (Nat × Nat) scoreGeRel :=
  ⟨fun a b => Nat.le_total b.2 a.2⟩

instance : IsTrans (Nat × Nat) scoreGeRel :=
  ⟨fun _ _ _ h1 h2 => Nat.le_trans h2 h1⟩

/-- Embeds `Array.from(scores.entries()).sort((a, b) => b[1] - a[1])`
(lines 202-203).  JS `sort` is stable, and the output of a stable sort
is uniquely determined by the comparator and the input order, so the
(stable) insertion sort over the insertion-ordered entry list is the
exact model. -/
def rankedScores (db : List ICD10Entry) (toks : List String) : List (Nat × Nat) :=
  (computeScores db toks).insertionSort scoreGeRel

/-- Placeholder entry for the (unreachable) out-of-range array access in
`icd10Database![idx]` (line 206); every index produced by scoring is a
valid position of the database. -/
def dummyEntry : ICD10Entry :=
  { code := "", desc := "", normalizedCode := "", keywords := [] }

/-- Embeds `searchByDescription` (lines 170-216). -/
def searchByDescription (db : List ICD10Entry) (query : String) (maxResults : Nat) :
    List SearchResult :=
  let queryKeywords := extractKeywords query
  if queryKeywords.isEmpty then []
  else
    ((rankedScores db queryKeywords).take maxResults).map (fun p =>
      let entry := db.getD p.1 dummyEntry
      { code := entry.code, description := entry.desc, score := p.2,
        matchType := MatchType.keyword })

/-! ### Scoring characterization -/

/-- Specification of the final score of entry position `i`: for each query
token, 3 per occurrence of `i` in the token's posting list, plus 1 per
occurrence of `i` in the posting list of every other indexed keyword the
token is a proper prefix of. -/
def prefixContrib (db : List ICD10Entry) (tok : String) (i : Nat) : Nat :=
  (((keywordIndexKeys db).filter (prefixCond tok)).map
    (fun k => (postings db k).count i)).sum

def scoreOf (db : List ICD10Entry) (toks : List String) (i : Nat) : Nat :=
  (toks.map (fun tok => 3 * (postings db tok).count i + prefixContrib db tok i)).sum

/-- Every value stored in the score map is positive. -/
def msWF (m : ScoreMap) : Prop :=
  ∀ p ∈ m, 0 < p.2

theorem msVal_nil (i : Nat) : msVal [] i = 0 := rfl

theorem msVal_msAdd (m : ScoreMap) (j pts i : Nat) :
    msVal (msAdd m j pts) i = msVal m i + (if j = i then pts else 0) := by
  induction m with
  | nil =>
    by_cases h : j = i
    · subst h
      simp [msAdd, msVal, msLookup]
    · simp [msAdd, msVal, msLookup, h]
  | cons p t ih =>
    obtain ⟨k, v⟩ := p
    simp only [msAdd]
    by_cases hk : k = j
    · subst hk
      rw [if_pos rfl]
      by_cases hi : k = i
      · subst hi
        simp [msVal, msLookup]
      · simp [msVal, msLookup, hi, fun h : k = i => hi h]
    · rw [if_neg hk]
      by_cases hi : k = i
      · subst hi
        have hji : ¬ j = k := fun h => hk h.symm
        simp [msVal, msLookup, hji]
      · simp only [msVal, msLookup, if_neg hi]
        exact ih

theorem msWF_msAdd {m : ScoreMap} (h : msWF m) {pts : Nat} (hp : 0 < pts) (j : Nat) :
    msWF (msAdd m j pts) := by
  induction m with
  | nil =>
    intro p hp2
    simp only [msAdd, List.mem_singleton] at hp2
    subst hp2
    exact hp
  | cons q t ih =>
    obtain ⟨k, v⟩ := q
    simp only [msAdd]
    by_cases hk : k = j
    · rw [if_pos hk]
      intro p hp2
      rcases List.mem_cons.mp hp2 with h1 | h1
      · subst h1
        have := h (k, v) (List.mem_cons_self _ _)
        simp only at this ⊢
        omega
      · exact h p (List.mem_cons_of_mem _ h1)
    · rw [if_neg hk]
      intro p hp2
      rcases List.mem_cons.mp hp2 with h1 | h1
      · subst h1
        exact h (k, v) (List.mem_cons_self _ _)
      · exact ih (fun q hq => h q (List.mem_cons_of_mem _ hq)) p h1

theorem msLookup_eq : ∀ (m : ScoreMap), msWF m → ∀ i : Nat,
    msLookup m i = if msVal m i = 0 then none else some (msVal m i)
  | [], _, i => by simp [msLookup, msVal]
  | (k, v) :: t, h, i => by
    have hv : 0 < v := h (k, v) (List.mem_cons_self _ _)
    by_cases hk : k = i
    · simp only [msVal, msLookup, if_pos hk, Option.getD_some]
      rw [if_neg (by omega)]
    · simp only [msVal, msLookup, if_neg hk]
      exact msLookup_eq t (fun q hq => h q (List.mem_cons_of_mem _ hq)) i

theorem msVal_addMany (idxs : List Nat) (m : ScoreMap) (pts i : Nat) :
    msVal (addMany m idxs pts) i = msVal m i + pts * idxs.count i := by
  induction idxs generalizing m with
  | nil => simp [addMany]
  | cons j t ih =>
    show msVal (addMany (msAdd m j pts) t pts) i = _
    rw [ih (msAdd m j pts), msVal_msAdd]
    by_cases hj : j = i
    · subst hj
      rw [if_pos rfl, List.count_cons, if_pos (by simp)]
      rw [Nat.mul_add, Nat.mul_one]
      omega
    · rw [if_neg hj, List.count_cons, if_neg (by simp [hj])]
      simp

theorem msWF_addMany {m : ScoreMap} (h : msWF m) {pts : Nat} (hp : 0 < pts)
    (idxs : List Nat) : msWF (addMany m idxs pts) := by
  induction idxs generalizing m with
  | nil => exact h
  | cons j t ih => exact ih (msWF_msAdd h hp j)

theorem msVal_prefixFold (db : List ICD10Entry) (tok : String) (i : Nat) :
    ∀ (ks : List String) (m : ScoreMap),
      msVal (ks.foldl
        (fun m k => if prefixCond tok k then addMany m (postings db k) 1 else m) m) i =
      msVal m i + ((ks.filter (prefixCond tok)).map (fun k => (postings db k).count i)).sum
  | [], m => by simp
  | k :: t, m => by
    simp only [List.foldl_cons, List.filter_cons]
    by_cases hc : prefixCond tok k
    · rw [if_pos hc, if_pos hc, msVal_prefixFold db tok i t, msVal_addMany]
      simp only [List.map_cons, List.sum_cons]
      omega
    · rw [if_neg hc, if_neg hc, msVal_prefixFold db tok i t]

theorem msWF_prefixFold (db : List ICD10Entry) (tok : String) :
    ∀ (ks : List String) (m : ScoreMap), msWF m →
      msWF (ks.foldl
        (fun m k => if prefixCond tok k then addMany m (postings db k) 1 else m) m)
  | [], _, h => h
  | k :: t, m, h => by
    simp only [List.foldl_cons]
    by_cases hc : prefixCond tok k
    · rw [if_pos hc]
      exact msWF_prefixFold db tok t _ (msWF_addMany h (by omega) _)
    · rw [if_neg hc]
      exact msWF_prefixFold db tok t _ h

theorem msVal_scoreToken (db : List ICD10Entry) (m : ScoreMap) (tok : String) (i : Nat) :
    msVal (scoreToken db m tok) i =
      msVal m i + (3 * (postings db tok).count i + prefixContrib db tok i) := by
  unfold scoreToken prefixContrib
  rw [msVal_prefixFold, msVal_addMany]
  omega

theorem msWF_scoreToken (db : List ICD10Entry) {m : ScoreMap} (h : msWF m) (tok : String) :
    msWF (scoreToken db m tok) := by
  unfold scoreToken
  exact msWF_prefixFold db tok _ _ (msWF_addMany h (by omega) _)

theorem msVal_computeScoresAux (db : List ICD10Entry) (i : Nat) :
    ∀ (toks : List String) (m : ScoreMap),
      msVal (toks.foldl (scoreToken db) m) i = msVal m i + scoreOf db toks i
  | [], m => by simp [scoreOf]
  | tok :: t, m => by
    simp only [List.foldl_cons]
    rw [msVal_computeScoresAux db i t, msVal_scoreToken]
    simp only [scoreOf, List.map_cons, List.sum_cons]
    omega

theorem msVal_computeScores (db : List ICD10Entry) (toks : List String) (i : Nat) :
    msVal (computeScores db toks) i = scoreOf db toks i := by
  unfold computeScores
  rw [msVal_computeScoresAux db i toks []]
  simp [msVal_nil]

theorem msWF_computeScores (db : List ICD10Entry) (toks : List String) :
    msWF (computeScores db toks) := by
  unfold computeScores
  have haux : ∀ (ts : List String) (m : ScoreMap), msWF m → msWF (ts.foldl (scoreToken db) m) := by
    intro ts
    induction ts with
    | nil => exact fun m h => h
    | cons tok t ih =>
      intro m h
      exact ih _ (msWF_scoreToken db h tok)
  exact haux toks [] (by intro p hp; simp at hp)

theorem msLookup_computeScores (db : List ICD10Entry) (toks : List String) (i : Nat) :
    msLookup (computeScores db toks) i =
      if scoreOf db toks i = 0 then none else some (scoreOf db toks i) := by
  rw [msLookup_eq _ (msWF_computeScores db toks), msVal_computeScores]

/-- C2: in `searchByDescription`, for every query token, every catalog entry
indexed under that exact token gains +3 to its running score (once per
occurrence in the token's posting list), and every entry indexed under
any other distinct indexed keyword that starts with the query token but
is not equal to it gains +1 (once per occurrence); consequently, for a
single-token query, an entry whose final score is exactly 3 (an exact
match and nothing else) is ranked strictly above an entry whose final
score is 1 (a single prefix match): its position in the ranked score
list is strictly smaller. -/
theorem searchByDescription_scoring :
    (∀ (db : List ICD10Entry) (toks : List String) (i : Nat),
      msLookup (computeScores db toks) i =
        if scoreOf db toks i = 0 then none else some (scoreOf db toks i)) ∧
    (∀ (db : List ICD10Entry) (tok : String) (ia ib ja jb : Nat),
      scoreOf db [tok] ia = 3 → scoreOf db [tok] ib = 1 →
      (rankedScores db [tok]).get? ja = some (ia, 3) →
      (rankedScores db [tok]).get? jb = some (ib, 1) →
      ja < jb) := by
  constructor
  · exact msLookup_computeScores
  · intro db tok ia ib ja jb _ _ hja hjb
    have hsorted : (rankedScores db [tok]).Pairwise scoreGeRel :=
      List.sorted_insertionSort scoreGeRel (computeScores db [tok])
    rw [List.pairwise_iff_getElem] at hsorted
    obtain ⟨hja2, hja3⟩ := List.get?_eq_some.mp hja
    obtain ⟨hjb2, hjb3⟩ := List.get?_eq_some.mp hjb
    rw [List.get_eq_getElem] at hja3 hjb3
    by_contra hcon
    rcases Nat.lt_or_ge jb ja with hlt | hge
    · have hrel := hsorted jb ja hjb2 hja2 hlt
      rw [hja3, hjb3] at hrel
      have : (3 : Nat) ≤ 1 := hrel
      omega
    · have hje : ja = jb := by omega
      subst hje
      rw [hja3] at hjb3
      have := congrArg Prod.snd hjb3
      simp at this

/-- Demonstration catalog for the exact-beats-prefix scenario: entry 0 is
indexed under the exact token "card", entry 1 only under "cardiology",
of which "card" is a proper prefix. -/
def cardRaws : List RawEntry :=
  [{ code := "A01", desc := "card" }, { code := "B02", desc := "cardiology" }]

theorem searchByDescription_scoring_witness :
    scoreOf (buildDatabase cardRaws) ["card"] 0 = 3 ∧
    scoreOf (buildDatabase cardRaws) ["card"] 1 = 1 ∧
    (rankedScores (buildDatabase cardRaws) ["card"]).get? 0 = some (0, 3) ∧
    (rankedScores (buildDatabase cardRaws) ["card"]).get? 1 = some (1, 1) ∧
    (0 : Nat) < 1 :=
  ⟨by decide, by decide, by decide, by decide,
   searchByDescription_scoring.2 (buildDatabase cardRaws) "card" 0 1 0 1
     (by decide) (by decide) (by decide) (by decide)⟩

/-- C4: for every query string and every `maxResults`, `searchByDescription`
returns only entries with positive score, sorted in descending score
order, truncated to at most `maxResults` entries, each tagged with
`matchType = keyword`. -/
theorem searchByDescription_results (db : List ICD10Entry) (query : String)
    (maxResults : Nat) :
    (∀ r ∈ searchByDescription db query maxResults,
      0 < r.score ∧ r.matchType = MatchType.keyword) ∧
    (searchByDescription db query maxResults).Pairwise
      (fun a b => b.score ≤ a.score) ∧
    (searchByDescription db query maxResults).length ≤ maxResults := by
  by_cases hq : (extractKeywords query).isEmpty
  · simp [searchByDescription, hq]
  · have hout : searchByDescription db query maxResults =
        ((rankedScores db (extractKeywords query)).take maxResults).map (fun p =>
          { code := (db.getD p.1 dummyEntry).code,
            description := (db.getD p.1 dummyEntry).desc,
            score := p.2, matchType := MatchType.keyword }) := by
      simp [searchByDescription, hq]
    refine ⟨?_, ?_, ?_⟩
    · intro r hr
      rw [hout] at hr
      obtain ⟨p, hp, rfl⟩ := List.mem_map.mp hr
      refine ⟨?_, rfl⟩
      have hp2 : p ∈ rankedScores db (extractKeywords query) :=
        List.take_subset _ _ hp
      have hp3 : p ∈ computeScores db (extractKeywords query) := by
        have := List.perm_insertionSort scoreGeRel
          (computeScores db (extractKeywords query))
        exact this.mem_iff.mp hp2
      exact msWF_computeScores db (extractKeywords query) p hp3
    · rw [hout]
      have hsorted : (rankedScores db (extractKeywords query)).Pairwise scoreGeRel :=
        List.sorted_insertionSort scoreGeRel _
      have htake := hsorted.sublist (List.take_sublist maxResults _)
      exact htake.map _ (fun a b h => h)
    · rw [hout]
      simp only [List.length_map, List.length_take]
      omega

theorem searchByDescription_results_witness :
    ({ code := "J18.9", description := "Pneumonia, unspecified organism",
       score := 3, matchType := MatchType.keyword } : SearchResult) ∈
      searchByDescription (buildDatabase demoRaws) "pneumonia" 5 ∧
    (0 : Nat) <
      ({ code := "J18.9", description := "Pneumonia, unspecified organism",
         score := 3, matchType := MatchType.keyword } : SearchResult).score ∧
    ({ code := "J18.9", description := "Pneumonia, unspecified organism",
       score := 3, matchType := MatchType.keyword } : SearchResult).matchType =
      MatchType.keyword :=
  ⟨by decide,
   ((searchByDescription_results (buildDatabase demoRaws) "pneumonia" 5).1
     _ (by decide)).1,
   ((searchByDescription_results (buildDatabase demoRaws) "pneumonia" 5).1
     _ (by decide)).2⟩

/-- C5: every query operation is a total Lean function over arbitrary
string input (so no input can make it throw); in particular any query
whose tokenization yields zero tokens — among them the empty string and
`"!!!"` — makes `searchByDescription` return the empty list rather than
an error. -/
theorem searchByDescription_empty_query (db : List ICD10Entry) (query : String)
    (n : Nat) :
    (extractKeywords query = [] → searchByDescription db query n = []) ∧
    searchByDescription db "" n = [] ∧
    searchByDescription db "!!!" n = [] := by
  refine ⟨?_, ?_, ?_⟩
  · intro h
    simp [searchByDescription, h]
  · have h : extractKeywords "" = [] := by decide
    simp [searchByDescription, h]
  · have h : extractKeywords "!!!" = [] := by decide
    simp [searchByDescription, h]

theorem searchByDescription_empty_query_witness :
    extractKeywords "zz" = [] ∧ searchByDescription [] "zz" 3 = [] :=
  ⟨by decide, (searchByDescription_empty_query [] "zz" 3).1 (by decide)⟩

/-! ### Similar-code search (`findSimilarCodes`, lines 222-251) -/

/-- The `SearchResult` pushed at lines 240-245 for a matching entry at a
given prefix length. -/
def mkSimResult (e : ICD10Entry) (plen : Nat) : SearchResult :=
  { code := e.code, description := e.desc, score := plen,
    matchType := MatchType.partial_code }

/-- Embeds the match test of line 239:
`entry.normalizedCode.startsWith(prefix) && entry.normalizedCode !== normalized`. -/
def simMatch (normalized : String) (plen : Nat) (e : ICD10Entry) : Bool :=
  jsStartsWith e.normalizedCode (jsSlice normalized plen) &&
    e.normalizedCode != normalized

/-- Embeds the inner entry scan of `findSimilarCodes` (lines 237-247) at one
prefix length, including the `results.length >= maxResults` break. -/
def simRound (db : List ICD10Entry) (normalized : String) (plen maxR : Nat)
    (acc : List SearchResult) : List SearchResult :=
  db.foldl (fun acc e =>
    if maxR ≤ acc.length then acc
    else if simMatch normalized plen e then acc ++ [mkSimResult e plen]
    else acc) acc

/-- Embeds the outer prefix-length loop of `findSimilarCodes` (line 234):
`for (let prefixLen = normalized.length; prefixLen >= 3 && results.length <
maxResults; prefixLen--)`, as structural recursion on the prefix length. -/
def simLoop (db : List ICD10Entry) (normalized : String) (maxR : Nat) :
    Nat → List SearchResult → List SearchResult
  | 0, acc => acc
  | plen + 1, acc =>
    if 3 ≤ plen + 1 ∧ acc.length < maxR then
      simLoop db normalized maxR plen (simRound db normalized (plen + 1) maxR acc)
    else acc

/-- Embeds `findSimilarCodes` (lines 222-251). -/
def findSimilarCodes (db : List ICD10Entry) (code : String) (maxR : Nat) :
    List SearchResult :=
  simLoop db (normalizeCode code) maxR (normalizeCode code).length []

theorem pairwise_of_mem_rel {α : Type} {R : α → α → Prop} :
    ∀ l : List α, (∀ a ∈ l, ∀ b ∈ l, R a b) → l.Pairwise R
  | [], _ => .nil
  | a :: t, h =>
    .cons (fun b hb => h a (List.mem_cons_self _ _) b (List.mem_cons_of_mem _ hb))
      (pairwise_of_mem_rel t
        (fun x hx y hy => h x (List.mem_cons_of_mem _ hx) y (List.mem_cons_of_mem _ hy)))

theorem simRound_nil (normalized : String) (plen maxR : Nat) (acc : List SearchResult) :
    simRound [] normalized plen maxR acc = acc := rfl

theorem simRound_cons (normalized : String) (plen maxR : Nat) (e : ICD10Entry)
    (rest : List ICD10Entry) (acc : List SearchResult) :
    simRound (e :: rest) normalized plen maxR acc =
      simRound rest normalized plen maxR
        (if maxR ≤ acc.length then acc
         else if simMatch normalized plen e then acc ++ [mkSimResult e plen] else acc) := rfl

theorem simRound_spec (normalized : String) (plen maxR : Nat) :
    ∀ (db : List ICD10Entry) (acc : List SearchResult),
      ∃ added, simRound db normalized plen maxR acc = acc ++ added ∧
        ∀ r ∈ added, ∃ e ∈ db, simMatch normalized plen e = true ∧ r = mkSimResult e plen
  | [], acc => ⟨[], by simp [simRound_nil], by simp⟩
  | e :: rest, acc => by
    rw [simRound_cons]
    by_cases hcap : maxR ≤ acc.length
    · rw [if_pos hcap]
      obtain ⟨added, h1, h2⟩ := simRound_spec normalized plen maxR rest acc
      exact ⟨added, h1, fun r hr =>
        (h2 r hr).elim (fun f hf => ⟨f, List.mem_cons_of_mem _ hf.1, hf.2⟩)⟩
    · rw [if_neg hcap]
      by_cases hm : simMatch normalized plen e
      · rw [if_pos hm]
        obtain ⟨added, h1, h2⟩ :=
          simRound_spec normalized plen maxR rest (acc ++ [mkSimResult e plen])
        refine ⟨mkSimResult e plen :: added, ?_, ?_⟩
        · rw [h1, List.append_assoc]
          rfl
        · intro r hr
          rcases List.mem_cons.mp hr with h3 | h3
          · exact ⟨e, List.mem_cons_self _ _, hm, h3⟩
          · obtain ⟨f, hf1, hf2⟩ := h2 r h3
            exact ⟨f, List.mem_cons_of_mem _ hf1, hf2⟩
      · rw [if_neg hm]
        obtain ⟨added, h1, h2⟩ := simRound_spec normalized plen maxR rest acc
        exact ⟨added, h1, fun r hr =>
          (h2 r hr).elim (fun f hf => ⟨f, List.mem_cons_of_mem _ hf.1, hf.2⟩)⟩

theorem simRound_length_le (normalized : String) (plen maxR : Nat) :
    ∀ (db : List ICD10Entry) (acc : List SearchResult), acc.length ≤ maxR →
      (simRound db normalized plen maxR acc).length ≤ maxR
  | [], _, h => h
  | e :: rest, acc, h => by
    rw [simRound_cons]
    by_cases hcap : maxR ≤ acc.length
    · rw [if_pos hcap]
      exact simRound_length_le normalized plen maxR rest acc h
    · rw [if_neg hcap]
      by_cases hm : simMatch normalized plen e
      · rw [if_pos hm]
        exact simRound_length_le normalized plen maxR rest _ (by simp; omega)
      · rw [if_neg hm]
        exact simRound_length_le normalized plen maxR rest acc h

theorem simRound_full (normalized : String) (plen maxR : Nat) :
    ∀ (db : List ICD10Entry) (acc : List SearchResult),
      (simRound db normalized plen maxR acc).length < maxR →
      simRound db normalized plen maxR acc =
        acc ++ (db.filter (simMatch normalized plen)).map (fun e => mkSimResult e plen)
  | [], acc, _ => by simp [simRound_nil]
  | e :: rest, acc, h => by
    rw [simRound_cons] at h ⊢
    by_cases hcap : maxR ≤ acc.length
    · exfalso
      rw [if_pos hcap] at h
      obtain ⟨added, h1, _⟩ := simRound_spec normalized plen maxR rest acc
      rw [h1] at h
      simp at h
      omega
    · rw [if_neg hcap] at h ⊢
      by_cases hm : simMatch normalized plen e
      · rw [if_pos hm] at h ⊢
        rw [simRound_full normalized plen maxR rest _ h]
        simp only [List.filter_cons, hm, if_pos, List.map_cons]
        rw [List.append_assoc]
        rfl
      · rw [if_neg hm] at h ⊢
        rw [simRound_full normalized plen maxR rest _ h]
        simp [List.filter_cons, hm]

theorem simLoop_succ_eq (db : List ICD10Entry) (normalized : String) (maxR plen : Nat)
    (acc : List SearchResult) :
    simLoop db normalized maxR (plen + 1) acc =
      if 3 ≤ plen + 1 ∧ acc.length < maxR then
        simLoop db normalized maxR plen (simRound db normalized (plen + 1) maxR acc)
      else acc := rfl

theorem simLoop_short (db : List ICD10Entry) (normalized : String) (maxR : Nat) :
    ∀ (plen : Nat) (acc : List SearchResult), plen < 3 →
      simLoop db normalized maxR plen acc = acc
  | 0, _, _ => rfl
  | _ + 1, acc, h => by
    rw [simLoop_succ_eq, if_neg (by omega)]

theorem simLoop_extends (db : List ICD10Entry) (normalized : String) (maxR : Nat) :
    ∀ (plen : Nat) (acc : List SearchResult),
      ∃ tail, simLoop db normalized maxR plen acc = acc ++ tail
  | 0, acc => ⟨[], by simp [simLoop]⟩
  | plen + 1, acc => by
    by_cases hg : 3 ≤ plen + 1 ∧ acc.length < maxR
    · rw [simLoop_succ_eq, if_pos hg]
      obtain ⟨added, ha1, _⟩ := simRound_spec normalized (plen + 1) maxR db acc
      obtain ⟨tail, ht⟩ := simLoop_extends db normalized maxR plen
        (simRound db normalized (plen + 1) maxR acc)
      exact ⟨added ++ tail, by rw [ht, ha1, List.append_assoc]⟩
    · exact ⟨[], by rw [simLoop_succ_eq, if_neg hg]; simp⟩

theorem simLoop_spec (db : List ICD10Entry) (normalized : String) (maxR : Nat) :
    ∀ (plen : Nat) (acc : List SearchResult),
      acc.Pairwise (fun a b => b.score ≤ a.score) →
      (∀ r ∈ acc, plen ≤ r.score) →
      acc.length ≤ maxR →
      ((simLoop db normalized maxR plen acc).Pairwise (fun a b => b.score ≤ a.score) ∧
       (∀ r ∈ simLoop db normalized maxR plen acc,
         r ∈ acc ∨ (3 ≤ r.score ∧ r.score ≤ plen ∧
           ∃ e ∈ db, simMatch normalized r.score e = true ∧ r = mkSimResult e r.score)) ∧
       (simLoop db normalized maxR plen acc).length ≤ maxR)
  | 0, acc, hs, _, hl => ⟨hs, fun r hr => Or.inl hr, hl⟩
  | plen + 1, acc, hs, hinv, hl => by
    by_cases hg : 3 ≤ plen + 1 ∧ acc.length < maxR
    · rw [simLoop_succ_eq, if_pos hg]
      obtain ⟨added, ha1, ha2⟩ := simRound_spec normalized (plen + 1) maxR db acc
      have hscore : ∀ r ∈ added, r.score = plen + 1 := by
        intro r hr
        obtain ⟨e, _, _, hre⟩ := ha2 r hr
        rw [hre]
        rfl
      have hs2 : (simRound db normalized (plen + 1) maxR acc).Pairwise
          (fun a b => b.score ≤ a.score) := by
        rw [ha1, List.pairwise_append]
        refine ⟨hs, pairwise_of_mem_rel _ ?_, ?_⟩
        · intro a haa b hbb
          rw [hscore a haa, hscore b hbb]
        · intro a haa b hbb
          rw [hscore b hbb]
          exact hinv a haa
      have hinv2 : ∀ r ∈ simRound db normalized (plen + 1) maxR acc, plen ≤ r.score := by
        intro r hr
        rw [ha1] at hr
        rcases List.mem_append.mp hr with h1 | h1
        · exact Nat.le_trans (by omega) (hinv r h1)
        · rw [hscore r h1]
          omega
      have hl2 : (simRound db normalized (plen + 1) maxR acc).length ≤ maxR :=
        simRound_length_le normalized (plen + 1) maxR db acc hl
      obtain ⟨c1, c2, c3⟩ := simLoop_spec db normalized maxR plen _ hs2 hinv2 hl2
      refine ⟨c1, ?_, c3⟩
      intro r hr
      rcases c2 r hr with h1 | h1
      · rw [ha1] at h1
        rcases List.mem_append.mp h1 with h2 | h2
        · exact Or.inl h2
        · right
          have hsc := hscore r h2
          obtain ⟨e, he, hm, hre⟩ := ha2 r h2
          refine ⟨by omega, by omega, e, he, ?_, ?_⟩
          · rw [hsc]
            exact hm
          · rw [hsc]
            exact hre
      · right
        obtain ⟨g1, g2, grest⟩ := h1
        exact ⟨g1, by omega, grest⟩
    · rw [simLoop_succ_eq, if_neg hg]
      exact ⟨hs, fun r hr => Or.inl hr, hl⟩

theorem simLoop_full (db : List ICD10Entry) (normalized : String) (maxR : Nat) :
    ∀ (plen : Nat) (acc : List SearchResult),
      (simLoop db normalized maxR plen acc).length < maxR →
      ∀ plen2 : Nat, 3 ≤ plen2 → plen2 ≤ plen →
        ∀ e ∈ db, simMatch normalized plen2 e = true →
          mkSimResult e plen2 ∈ simLoop db normalized maxR plen acc
  | 0, acc, _, plen2, h3, hle, e, _, _ => absurd h3 (by omega)
  | plen + 1, acc, h, plen2, h3, hle, e, he, hm => by
    by_cases hg : 3 ≤ plen + 1 ∧ acc.length < maxR
    · rw [simLoop_succ_eq, if_pos hg] at h ⊢
      by_cases hpe : plen2 = plen + 1
      · subst hpe
        obtain ⟨tail, ht⟩ := simLoop_extends db normalized maxR plen
          (simRound db normalized (plen + 1) maxR acc)
        have hlen2 : (simRound db normalized (plen + 1) maxR acc).length < maxR := by
          rw [ht] at h
          simp only [List.length_append] at h
          omega
        have hfull := simRound_full normalized (plen + 1) maxR db acc hlen2
        have hmem : mkSimResult e (plen + 1) ∈ simRound db normalized (plen + 1) maxR acc := by
          rw [hfull]
          exact List.mem_append_right _
            (List.mem_map.mpr ⟨e, List.mem_filter.mpr ⟨he, hm⟩, rfl⟩)
        rw [ht]
        exact List.mem_append_left _ hmem
      · exact simLoop_full db normalized maxR plen _ h plen2 h3 (by omega) e he hm
    · rw [simLoop_succ_eq, if_neg hg] at h
      exact absurd h (by omega)

/-- C3: every result of `findSimilarCodes` has `matchType = partial_code`,
comes from a catalog entry whose `normalizedCode` starts with the prefix
of the normalized input of length `score` (so `3 ≤ score ≤` the
normalized input's length) and differs from the normalized input; the
results are in non-increasing score order with at most `maxResults`
elements; and a normalized input shorter than 3 characters yields the
empty list. -/
theorem findSimilarCodes_results (db : List ICD10Entry) (code : String)
    (maxResults : Nat) :
    (∀ r ∈ findSimilarCodes db code maxResults,
      r.matchType = MatchType.partial_code ∧ 3 ≤ r.score ∧
      r.score ≤ (normalizeCode code).length ∧
      ∃ e ∈ db, simMatch (normalizeCode code) r.score e = true ∧
        r = mkSimResult e r.score) ∧
    (findSimilarCodes db code maxResults).Pairwise (fun a b => b.score ≤ a.score) ∧
    (findSimilarCodes db code maxResults).length ≤ maxResults ∧
    ((normalizeCode code).length < 3 → findSimilarCodes db code maxResults = []) := by
  obtain ⟨c1, c2, c3⟩ := simLoop_spec db (normalizeCode code) maxResults
    (normalizeCode code).length [] List.Pairwise.nil (by simp) (by simp)
  refine ⟨?_, c1, c3, ?_⟩
  · intro r hr
    rcases c2 r hr with h1 | h1
    · simp at h1
    · obtain ⟨h3, hle, e, he, hmm, hre⟩ := h1
      exact ⟨by rw [hre]; rfl, h3, hle, e, he, hmm, hre⟩
  · intro hlt
    exact simLoop_short db (normalizeCode code) maxResults _ [] hlt

theorem findSimilarCodes_results_witness :
    mkSimResult demoEntryJ189 3 ∈ findSimilarCodes (buildDatabase demoRaws) "J18.0" 5 ∧
    (mkSimResult demoEntryJ189 3).matchType = MatchType.partial_code ∧
    3 ≤ (mkSimResult demoEntryJ189 3).score :=
  ⟨by decide,
   ((findSimilarCodes_results (buildDatabase demoRaws) "J18.0" 5).1 _ (by decide)).1,
   ((findSimilarCodes_results (buildDatabase demoRaws) "J18.0" 5).1 _ (by decide)).2.1⟩

/-- One-entry catalog used to exhibit duplicated results. -/
def pneuRaw : List RawEntry :=
  [{ code := "J18.9", desc := "Pneumonia, unspecified organism" }]

/-- C10 (implicit): `findSimilarCodes` performs no deduplication across
prefix lengths — whenever the cap is never reached (final length below
`maxResults`), every matching (entry, prefix length) pair with length
between 3 and the normalized input's length contributes a result, so the
same catalog code appears once per matching prefix length; concretely,
on a catalog containing only "J18.9", input "J18.99" lists "J18.9" with
score 4 and again with score 3. -/
theorem findSimilarCodes_no_dedup :
    (∀ (db : List ICD10Entry) (code : String) (maxResults : Nat)
        (e : ICD10Entry) (plen : Nat),
      (findSimilarCodes db code maxResults).length < maxResults →
      e ∈ db → 3 ≤ plen → plen ≤ (normalizeCode code).length →
      simMatch (normalizeCode code) plen e = true →
      mkSimResult e plen ∈ findSimilarCodes db code maxResults) ∧
    findSimilarCodes (buildDatabase pneuRaw) "J18.99" 5 =
      [mkSimResult demoEntryJ189 4, mkSimResult demoEntryJ189 3] := by
  refine ⟨?_, by decide⟩
  intro db code maxResults e plen hlen he h3 hle hm
  exact simLoop_full db (normalizeCode code) maxResults (normalizeCode code).length []
    hlen plen h3 hle e he hm

theorem findSimilarCodes_no_dedup_witness :
    (findSimilarCodes (buildDatabase pneuRaw) "J18.99" 5).length < 5 ∧
    demoEntryJ189 ∈ buildDatabase pneuRaw ∧
    simMatch (normalizeCode "J18.99") 3 demoEntryJ189 = true ∧
    mkSimResult demoEntryJ189 3 ∈ findSimilarCodes (buildDatabase pneuRaw) "J18.99" 5 :=
  ⟨by decide, by decide, by decide,
   findSimilarCodes_no_dedup.1 (buildDatabase pneuRaw) "J18.99" 5 demoEntryJ189 3
     (by decide) (by decide) (by decide) (by decide) (by decide)⟩

/-! ### Load state machine (lines 31-37, 69-125) and stats (lines 292-304) -/

/-- Embeds the spec's `CatalogLoadError`: the failed load rejects with the
underlying cause (`reject(error)`, line 118). -/
structure CatalogLoadError where
  cause : String
deriving DecidableEq, Repr

/-- The module-level singleton `icd10Database` (line 31): `none` before a
successful load, `some db` after one.  On a failed load attempt
`icd10Database` is never assigned — the assignment at line 87 happens
only after the whole entry array is built, and nothing after it in the
`try` block can throw — so the uninitialized state is exactly `none`,
and `codeIndex` / `keywordIndex` are functions of the loaded list in
this embedding (never partially populated). -/
abbrev DbState := Option (List ICD10Entry)

/-- One attempt at the static source (lines 83-84): either the parsed
`{code, desc}` records, or a read/parse failure with its cause. -/
inductive LoadSource where
  | ok : List RawEntry → LoadSource
  | err : String → LoadSource
deriving DecidableEq, Repr

/-- Outcome of a load-triggering operation: success with a value, or the
rejection of the load promise. -/
inductive LoadOutcome (α : Type) where
  | ok : α → LoadOutcome α
  | error : CatalogLoadError → LoadOutcome α
deriving DecidableEq, Repr

/-- Embeds `loadDatabase` (lines 69-125) as a state transition.  A
previously loaded catalog short-circuits (line 70); otherwise the source
is read and parsed: success builds the database and indexes, failure
rejects with the cause and leaves the state uninitialized.  A failed
attempt resets `isLoading` in the `finally` (line 120), so a later call
retries with a fresh source attempt rather than awaiting the stale
rejected promise. -/
def loadDatabase (st : DbState) (src : LoadSource) :
    DbState × LoadOutcome Unit :=
  match st with
  | some db => (some db, LoadOutcome.ok ())
  | none =>
    match src with
    | LoadSource.ok raws => (some (buildDatabase raws), LoadOutcome.ok ())
    | LoadSource.err cause => (none, LoadOutcome.error { cause := cause })

/-- Embeds the record returned by `getDatabaseStats` (lines 299-303). -/
structure DbStats where
  totalCodes : Nat
  uniqueKeywords : Nat
  loaded : Bool
deriving DecidableEq, Repr

/-- Embeds `icd10Database !== null` (line 302). -/
def loadedFlag (st : DbState) : Bool :=
  st.isSome

/-- Embeds `getDatabaseStats` (lines 292-304): awaits `loadDatabase` (a
rejection propagates to the caller), then reports
`icd10Database?.length ?? 0`, `keywordIndex?.size ?? 0` and the loaded
flag against the post-load state. -/
def getDatabaseStats (st : DbState) (src : LoadSource) :
    DbState × LoadOutcome DbStats :=
  match loadDatabase st src with
  | (st2, LoadOutcome.ok ()) =>
    (st2, LoadOutcome.ok
      { totalCodes := (st2.getD []).length
        uniqueKeywords := (keywordIndexKeys (st2.getD [])).length
        loaded := loadedFlag st2 })
  | (st2, LoadOutcome.error e) => (st2, LoadOutcome.error e)

/-- C6: if the static catalog source cannot be read or parsed, the load
fails with a `CatalogLoadError` carrying the underlying cause, the
catalog remains uninitialized (`none` — no partially populated indexes
ever observable), and a subsequent load-triggering call may retry the
load and succeed. -/
theorem loadDatabase_failure (cause : String) (src : LoadSource)
    (h : src = LoadSource.err cause) :
    loadDatabase none src = (none, LoadOutcome.error { cause := cause }) ∧
    (∀ raws : List RawEntry,
      loadDatabase (loadDatabase none src).1 (LoadSource.ok raws) =
        (some (buildDatabase raws), LoadOutcome.ok ())) := by
  subst h
  exact ⟨rfl, fun raws => rfl⟩

theorem loadDatabase_failure_witness :
    (LoadSource.err "ENOENT" : LoadSource) = LoadSource.err "ENOENT" ∧
    loadDatabase none (LoadSource.err "ENOENT") =
      (none, LoadOutcome.error { cause := "ENOENT" }) :=
  ⟨rfl, (loadDatabase_failure "ENOENT" (LoadSource.err "ENOENT") rfl).1⟩

/-- C9: `getDatabaseStats` reports `totalCodes`, `uniqueKeywords` and a
`loaded` flag; it triggers the catalog load when the state is not yet
loaded; the loaded flag is `false` before the first load, and every
successful `getDatabaseStats` call returns `loaded = true`. -/
theorem getDatabaseStats_loads (raws : List RawEntry) :
    loadedFlag none = false ∧
    getDatabaseStats none (LoadSource.ok raws) =
      (some (buildDatabase raws), LoadOutcome.ok
        { totalCodes := (buildDatabase raws).length
          uniqueKeywords := (keywordIndexKeys (buildDatabase raws)).length
          loaded := true }) ∧
    (∀ (st st2 : DbState) (src : LoadSource) (stats : DbStats),
      getDatabaseStats st src = (st2, LoadOutcome.ok stats) → stats.loaded = true) := by
  refine ⟨rfl, rfl, ?_⟩
  intro st st2 src stats h
  match st, src, h with
  | some db, src, h =>
    simp only [getDatabaseStats, loadDatabase] at h
    have := congrArg Prod.snd h
    simp only at this
    cases this
    rfl
  | none, LoadSource.ok raws2, h =>
    simp only [getDatabaseStats, loadDatabase] at h
    have := congrArg Prod.snd h
    simp only at this
    cases this
    rfl

theorem getDatabaseStats_loads_witness :
    getDatabaseStats none (LoadSource.ok demoRaws) =
      (some (buildDatabase demoRaws), LoadOutcome.ok
        { totalCodes := 2, uniqueKeywords := 10, loaded := true }) ∧
    ({ totalCodes := 2, uniqueKeywords := 10, loaded := true } : DbStats).loaded = true :=
  ⟨by decide,
   (getDatabaseStats_loads demoRaws).2.2 none (some (buildDatabase demoRaws))
     (LoadSource.ok demoRaws)
     { totalCodes := 2, uniqueKeywords := 10, loaded := true } (by decide)⟩

end ICD10
